import Mathlib

/-!
Shallow embedding of the isolate runtime (environment manager, IPC address
codec, remote facade) for checking its specification.

Sources embedded:
  * `src/isolate/backends/common.py` — `rmdir_on_fail`, `python_path_for`
  * `src/isolate/backends/conda.py` — `CondaEnvironment.key`,
    `CondaEnvironment.create`, `CondaEnvironment.destroy`
  * `src/isolate/backends/remote.py` — `IsolateServerConnection.run`
  * `src/isolate/connections/ipc/bridge.py` — `encode_service_address`,
    `decode_service_address`

File-system state is modelled as the set (a list) of existing paths, where a
path is its list of components.  Python exceptions raised by an operation are
modelled as `Except` errors; the external `conda` subprocess is a parameter
function from the file-system state to a new state plus an exit code.
-/

namespace Isolate

/-- A filesystem path, as its list of components. -/
abbrev FSPath := List String

/-- A filesystem state: the set of existing paths, kept as a list. -/
abbrev FS := List FSPath

/-- `Path.exists()` on the modelled filesystem. -/
def pathExists (fs : FS) (p : FSPath) : Bool :=
  fs.contains p

/-- `shutil.rmtree(root)` on an existing tree: removes `root` and every path
below it.  (The caller is responsible for `root` existing; see
`CondaEnvironment.destroy` for the raising wrapper.) -/
def rmtree (fs : FS) (root : FSPath) : FS :=
  fs.filter (fun q => !root.isPrefixOf q)

/-- The cleanup performed by `rmdir_on_fail` (backends/common.py) when an
exception escapes its body: `if path.exists(): shutil.rmtree(path)`. -/
def rmdirCleanup (fs : FS) (p : FSPath) : FS :=
  if pathExists fs p then rmtree fs p else fs

/-- The Python exceptions that the embedded conda backend can raise. -/
inductive PyError where
  /-- `FileExistsError` raised by `create` when the slot exists and
  `exist_ok` is false. -/
  | fileExistsError (path : FSPath)
  /-- `subprocess.CalledProcessError` raised by `check_call` on a non-zero
  exit status. -/
  | calledProcessError (exitCode : Nat)
  /-- `FileNotFoundError` (conda executable missing, or `rmtree` on an
  absent path). -/
  | fileNotFoundError
deriving DecidableEq, Repr

/-- `CondaEnvironment.key` (conda.py): the hex digest of SHA-256 over the
packages joined with single spaces.  The SHA-256 collaborator from `hashlib`
is abstracted as the function argument `sha256hex`. -/
def CondaEnvironment.key (sha256hex : String → String) (packages : List String) : String :=
  sha256hex (String.intercalate " " packages)

/-- The cache slot used by `CondaEnvironment.create`:
`self.context.get_cache_dir(self) / self.key`. -/
def CondaEnvironment.cacheSlot (sha256hex : String → String) (cacheDir : FSPath)
    (packages : List String) : FSPath :=
  cacheDir ++ [CondaEnvironment.key sha256hex packages]

instance {ε α : Type} [DecidableEq ε] [DecidableEq α] : DecidableEq (Except ε α) := fun a b =>
  match a, b with
  | .ok x, .ok y => decidable_of_iff (x = y) (by simp)
  | .error x, .error y => decidable_of_iff (x = y) (by simp)
  | .ok _, .error _ => isFalse (by simp)
  | .error _, .ok _ => isFalse (by simp)

/-- Everything `CondaEnvironment.create` returns: the resulting filesystem,
whether the conda subprocess was invoked, and the returned path or the raised
exception. -/
structure CreateResult where
  fs : FS
  provisionerInvoked : Bool
  result : Except PyError FSPath
deriving DecidableEq, Repr

/-- `CondaEnvironment.create` (conda.py).

  * `condaFound` models whether `_get_conda_executable` succeeds (it raises
    `FileNotFoundError` otherwise);
  * `provision` models the external `conda create --yes --prefix <path> ...`
    subprocess: from the filesystem state it yields the new state and the
    exit code (`subprocess.check_call` raises `CalledProcessError` when the
    code is non-zero);
  * `cachePath` is `self.context.get_cache_dir(self) / self.key`.

The body from the source: if the slot exists, return it (`exist_ok`) or
raise `FileExistsError`; otherwise run the provisioning under
`rmdir_on_fail(path)`, which on any exception removes the directory (when it
exists) before re-raising. -/
def CondaEnvironment.create (condaFound : Bool) (provision : FS → FS × Nat)
    (cachePath : FSPath) (fs : FS) (exist_ok : Bool) : CreateResult :=
  if pathExists fs cachePath then
    if exist_ok then
      ⟨fs, false, .ok cachePath⟩
    else
      ⟨fs, false, .error (.fileExistsError cachePath)⟩
  else
    if condaFound then
      let step := provision fs
      if step.2 = 0 then
        ⟨step.1, true, .ok cachePath⟩
      else
        ⟨rmdirCleanup step.1 cachePath, true, .error (.calledProcessError step.2)⟩
    else
      ⟨rmdirCleanup fs cachePath, false, .error .fileNotFoundError⟩

/-- `CondaEnvironment.destroy` (conda.py): `shutil.rmtree(conn_info)`.
`shutil.rmtree` raises `FileNotFoundError` when the path does not exist. -/
def CondaEnvironment.destroy (fs : FS) (conn_info : FSPath) : FS × Except PyError Unit :=
  if pathExists fs conn_info then
    (rmtree fs conn_info, .ok ())
  else
    (fs, .error .fileNotFoundError)

/-! ### `python_path_for` (backends/common.py)

Strings on this side are modelled as lists of characters so that the joined
search path can be split back into its components.  `sysconfig.get_path
("purelib", vars=\x7b"base": p\x7d)` is an external collaborator and enters as
the function argument `libdir`; `os.pathsep` enters as `sep`. -/

/-- `str.join` over a separator character, as performed by
`os.pathsep.join(...)`. -/
def joinSep (sep : Char) : List (List Char) → List Char
  | [] => []
  | [x] => x
  | x :: y :: rest => x ++ sep :: joinSep sep (y :: rest)

/-- Splitting a joined string back on the separator character (the inverse
view used to state the ordering property; not part of the source). -/
def splitSep (sep : Char) : List Char → List (List Char)
  | [] => [[]]
  | c :: rest =>
    match splitSep sep rest with
    | [] => [[]]
    | h :: t => if c = sep then [] :: h :: t else (c :: h) :: t

/-- `python_path_for(*search_paths)` (backends/common.py): asserts at least
one path was given, then joins `libdir` of every search path with the
platform path separator, preserving order.  The failed `assert` is modelled
as `none`. -/
def python_path_for (sep : Char) (libdir : List Char → List Char)
    (search_paths : List (List Char)) : Option (List Char) :=
  if search_paths.length ≥ 1 then
    some (joinSep sep (search_paths.map libdir))
  else
    none

/-! ### Remote facade: `IsolateServerConnection.run` (backends/remote.py)

The gRPC stream is modelled as the list of `PartialResult` messages the
iterator yields, each carrying its log records, its (still gRPC-encoded)
result payload and the `is_complete` flag.  `interface.from_grpc` on the
result payload is the function argument `decode`; on log records the
identity suffices since the claim treats log records as opaque.  `run`
returns the ordered trace of sink calls (`self.log ...`) next to its
outcome; a raised `RuntimeError` is the `Except.error` carrying the
message. -/

/-- One streamed response message of the remote facade. -/
structure PartialResult (L R : Type) where
  logs : List L
  result : R
  is_complete : Bool

/-- The loop body of `IsolateServerConnection.run`: walks the stream, logs
every record of every message, and collects the decoded result of every
message having `is_complete` (the `return_value` list). -/
def IsolateServerConnection.collect {L R V : Type} (decode : R → V) :
    List (PartialResult L R) → List L × List V
  | [] => ([], [])
  | msg :: rest =>
    let tail := IsolateServerConnection.collect decode rest
    (msg.logs ++ tail.1, (if msg.is_complete then [decode msg.result] else []) ++ tail.2)

/-- The `RuntimeError` message for a stream with no complete message. -/
def noResultMsg : String :=
  "No result object was received from the server (it never set is_complete to True)."

/-- The `RuntimeError` message for a stream with several complete messages. -/
def multipleResultsMsg : String :=
  "Multiple result objects were received from the server (it set is_complete to True multiple times)."

/-- `IsolateServerConnection.run` (backends/remote.py): consume the stream,
then return the single collected result, or raise a `RuntimeError` when
there were zero or several.  The first component is the ordered trace of log
records forwarded to the sink before returning. -/
def IsolateServerConnection.run {L R V : Type} (decode : R → V)
    (stream : List (PartialResult L R)) : List L × Except String V :=
  ((IsolateServerConnection.collect decode stream).1,
    match (IsolateServerConnection.collect decode stream).2 with
    | [] => .error noResultMsg
    | [v] => .ok v
    | _ :: _ :: _ => .error multipleResultsMsg)

/-! ### Service-address codec (connections/ipc/bridge.py)

Python `bytes` values are modelled as lists of byte values (`Nat < 256`) and
Python `str` values as lists of Unicode code points.  `str.encode()` /
`bytes.decode("utf-8")` are the strict UTF-8 codec of the standard library,
modelled below; `base64.b64encode` / `base64.b64decode` are modelled over
byte lists.  Raising (`UnicodeDecodeError`, `binascii.Error`) is `none`. -/

/-- A Unicode scalar value: what a strict Python `str.encode()` accepts
(surrogates raise). -/
def ScalarValue (c : Nat) : Prop :=
  c < 0xD800 ∨ (0xE000 ≤ c ∧ c < 0x110000)

instance (c : Nat) : Decidable (ScalarValue c) := by
  unfold ScalarValue; infer_instance

/-- UTF-8 encoding of one code point (1–4 bytes). -/
def utf8EncodeChar (c : Nat) : List Nat :=
  if c < 0x80 then
    [c]
  else if c < 0x800 then
    [0xC0 + c / 64, 0x80 + c % 64]
  else if c < 0x10000 then
    [0xE0 + c / 4096, 0x80 + c / 64 % 64, 0x80 + c % 64]
  else
    [0xF0 + c / 262144, 0x80 + c / 4096 % 64, 0x80 + c / 64 % 64, 0x80 + c % 64]

/-- UTF-8 encoding of a string (`str.encode()`). -/
def utf8Encode (s : List Nat) : List Nat :=
  s.flatMap utf8EncodeChar

/-- Is `b` a UTF-8 continuation byte? -/
def isCont (b : Nat) : Prop :=
  0x80 ≤ b ∧ b < 0xC0

instance (b : Nat) : Decidable (isCont b) := by
  unfold isCont; infer_instance

/-- Code point of a two-byte UTF-8 sequence. -/
def utf8Cp2 (b1 b2 : Nat) : Nat :=
  (b1 - 0xC0) * 64 + (b2 - 0x80)

/-- Code point of a three-byte UTF-8 sequence. -/
def utf8Cp3 (b1 b2 b3 : Nat) : Nat :=
  (b1 - 0xE0) * 4096 + (b2 - 0x80) * 64 + (b3 - 0x80)

/-- Code point of a four-byte UTF-8 sequence. -/
def utf8Cp4 (b1 b2 b3 b4 : Nat) : Nat :=
  (b1 - 0xF0) * 262144 + (b2 - 0x80) * 4096 + (b3 - 0x80) * 64 + (b4 - 0x80)

/-- A valid two-byte UTF-8 sequence (the `0xC0`/`0xC1` leads would be
overlong and are rejected, as in CPython's strict codec). -/
def utf8Seq2OK (b1 b2 : Nat) : Prop :=
  0xC2 ≤ b1 ∧ b1 < 0xE0 ∧ isCont b2

/-- A valid three-byte UTF-8 sequence: no overlong encoding, no
surrogate. -/
def utf8Seq3OK (b1 b2 b3 : Nat) : Prop :=
  0xE0 ≤ b1 ∧ b1 < 0xF0 ∧ isCont b2 ∧ isCont b3
    ∧ 0x800 ≤ utf8Cp3 b1 b2 b3
    ∧ ¬ (0xD800 ≤ utf8Cp3 b1 b2 b3 ∧ utf8Cp3 b1 b2 b3 < 0xE000)

/-- A valid four-byte UTF-8 sequence: no overlong encoding, in Unicode
range. -/
def utf8Seq4OK (b1 b2 b3 b4 : Nat) : Prop :=
  0xF0 ≤ b1 ∧ b1 < 0xF5 ∧ isCont b2 ∧ isCont b3 ∧ isCont b4
    ∧ 0x10000 ≤ utf8Cp4 b1 b2 b3 b4 ∧ utf8Cp4 b1 b2 b3 b4 < 0x110000

instance (b1 b2 : Nat) : Decidable (utf8Seq2OK b1 b2) := by
  unfold utf8Seq2OK; infer_instance

instance (b1 b2 b3 : Nat) : Decidable (utf8Seq3OK b1 b2 b3) := by
  unfold utf8Seq3OK; infer_instance

instance (b1 b2 b3 b4 : Nat) : Decidable (utf8Seq4OK b1 b2 b3 b4) := by
  unfold utf8Seq4OK; infer_instance

/-- Strict UTF-8 decoding (`bytes.decode("utf-8")`): rejects truncated or
malformed sequences, overlong encodings, surrogates and out-of-range code
points, as CPython's strict codec does. -/
def utf8Decode : List Nat → Option (List Nat)
  | [] => some []
  | [b1] =>
    if b1 < 0x80 then some [b1] else none
  | [b1, b2] =>
    if b1 < 0x80 then (utf8Decode [b2]).map (b1 :: ·)
    else if utf8Seq2OK b1 b2 then some [utf8Cp2 b1 b2]
    else none
  | [b1, b2, b3] =>
    if b1 < 0x80 then (utf8Decode [b2, b3]).map (b1 :: ·)
    else if utf8Seq2OK b1 b2 then (utf8Decode [b3]).map (utf8Cp2 b1 b2 :: ·)
    else if utf8Seq3OK b1 b2 b3 then some [utf8Cp3 b1 b2 b3]
    else none
  | b1 :: b2 :: b3 :: b4 :: rest =>
    if b1 < 0x80 then (utf8Decode (b2 :: b3 :: b4 :: rest)).map (b1 :: ·)
    else if utf8Seq2OK b1 b2 then (utf8Decode (b3 :: b4 :: rest)).map (utf8Cp2 b1 b2 :: ·)
    else if utf8Seq3OK b1 b2 b3 then (utf8Decode (b4 :: rest)).map (utf8Cp3 b1 b2 b3 :: ·)
    else if utf8Seq4OK b1 b2 b3 b4 then (utf8Decode rest).map (utf8Cp4 b1 b2 b3 b4 :: ·)
    else none

/-- The base64 alphabet, as code points: index `n < 64` to the character
encoding it. -/
def b64Char (n : Nat) : Nat :=
  if n < 26 then 65 + n
  else if n < 52 then 97 + (n - 26)
  else if n < 62 then 48 + (n - 52)
  else if n = 62 then 43
  else 47

/-- Reverse lookup in the base64 alphabet. -/
def b64Index (c : Nat) : Option Nat :=
  if 65 ≤ c ∧ c ≤ 90 then some (c - 65)
  else if 97 ≤ c ∧ c ≤ 122 then some (c - 97 + 26)
  else if 48 ≤ c ∧ c ≤ 57 then some (c - 48 + 52)
  else if c = 43 then some 62
  else if c = 47 then some 63
  else none

/-- The `=` padding character as a code point. -/
def b64Pad : Nat := 61

/-- `base64.b64encode`: bytes to the code points of the base64 text, with
`=` padding. -/
def b64Encode : List Nat → List Nat
  | b1 :: b2 :: b3 :: rest =>
    b64Char (b1 / 4) :: b64Char (b1 % 4 * 16 + b2 / 16) ::
      b64Char (b2 % 16 * 4 + b3 / 64) :: b64Char (b3 % 64) :: b64Encode rest
  | [b1, b2] =>
    [b64Char (b1 / 4), b64Char (b1 % 4 * 16 + b2 / 16), b64Char (b2 % 16 * 4), b64Pad]
  | [b1] =>
    [b64Char (b1 / 4), b64Char (b1 % 4 * 16), b64Pad, b64Pad]
  | [] => []

/-- `base64.b64decode` over the code points of the base64 text. -/
def b64Decode : List Nat → Option (List Nat)
  | [] => some []
  | c1 :: c2 :: c3 :: c4 :: rest =>
    match b64Index c1, b64Index c2 with
    | some n1, some n2 =>
      if c3 = b64Pad then
        if c4 = b64Pad ∧ rest = [] then some [n1 * 4 + n2 / 16] else none
      else
        match b64Index c3 with
        | some n3 =>
          if c4 = b64Pad then
            if rest = [] then some [n1 * 4 + n2 / 16, n2 % 16 * 16 + n3 / 4] else none
          else
            match b64Index c4 with
            | some n4 =>
              (b64Decode rest).map
                (fun ds => (n1 * 4 + n2 / 16) :: (n2 % 16 * 16 + n3 / 4) :: (n3 % 4 * 64 + n4) :: ds)
            | none => none
        | none => none
    | _, _ => none
  | _ => none

/-- A Python value that is either `bytes` or `str`, as accepted by
`encode_service_address`. -/
abbrev BytesOrStr := List Nat ⊕ List Nat

/-- `encode_service_address` (connections/ipc/bridge.py): a `bytes` address
is first `.decode()`d to `str`; the `str` is `.encode()`d to UTF-8 bytes,
base64-encoded, and the base64 bytes are `.decode("utf-8")`d back to the
returned `str`. -/
def encode_service_address (address : BytesOrStr) : Option (List Nat) :=
  (match address with
    | .inl bs => utf8Decode bs
    | .inr s => some s).bind
    (fun s => utf8Decode (b64Encode (utf8Encode s)))

/-- `decode_service_address` (connections/ipc/bridge.py):
`base64.b64decode(address).decode("utf-8")`. -/
def decode_service_address (address : List Nat) : Option (List Nat) :=
  (b64Decode address).bind utf8Decode

/-! ## Helper lemmas -/

theorem pathExists_iff_mem (fs : FS) (p : FSPath) : pathExists fs p = true ↔ p ∈ fs := by
  simp [pathExists]

theorem mem_rmtree (fs : FS) (root q : FSPath) :
    q ∈ rmtree fs root ↔ q ∈ fs ∧ root.isPrefixOf q = false := by
  simp [rmtree, List.mem_filter]

theorem pathExists_rmtree_of_under (fs : FS) (root q : FSPath)
    (h : root.isPrefixOf q = true) : pathExists (rmtree fs root) q = false := by
  rw [Bool.eq_false_iff]
  intro hmem
  rw [pathExists_iff_mem, mem_rmtree] at hmem
  rw [hmem.2] at h
  exact Bool.false_ne_true h

theorem isPrefixOf_self (p : FSPath) : p.isPrefixOf p = true := by
  simp [List.isPrefixOf_iff_prefix]

/-! ## Claim theorems: environment manager (conda backend) -/

/-- C3: whenever `CondaEnvironment.create` started on an absent cache slot
and fails with an exception, the cache slot is absent afterwards: the
directory for that fingerprint and everything below it is removed before
the exception propagates.  The two well-formedness hypotheses say that in
the pre-state and in the provisioner's post-state anything living below the
slot implies the slot directory itself exists, as on a real filesystem. -/
theorem conda_create_failure_removes_slot (condaFound : Bool)
    (provision : FS → FS × Nat) (cachePath : FSPath) (fs : FS) (exist_ok : Bool)
    (e : PyError)
    (hpre : pathExists fs cachePath = false)
    (hwf0 : ∀ q, cachePath.isPrefixOf q = true → pathExists fs q = true →
      pathExists fs cachePath = true)
    (hwf1 : ∀ q, cachePath.isPrefixOf q = true → pathExists (provision fs).1 q = true →
      pathExists (provision fs).1 cachePath = true)
    (hfail : (CondaEnvironment.create condaFound provision cachePath fs exist_ok).result
      = .error e)
    (q : FSPath) (hq : cachePath.isPrefixOf q = true) :
    pathExists (CondaEnvironment.create condaFound provision cachePath fs exist_ok).fs q
      = false := by
  unfold CondaEnvironment.create at hfail ⊢
  rw [hpre] at hfail ⊢
  simp only [Bool.false_eq_true, if_false] at hfail ⊢
  by_cases hc : condaFound = true
  · rw [hc] at hfail ⊢
    simp only [if_true] at hfail ⊢
    by_cases hz : (provision fs).2 = 0
    · rw [if_pos hz] at hfail
      exact absurd hfail (by simp)
    · rw [if_neg hz] at hfail ⊢
      simp only
      unfold rmdirCleanup
      by_cases hx : pathExists (provision fs).1 cachePath = true
      · rw [if_pos hx]
        exact pathExists_rmtree_of_under _ _ _ hq
      · rw [if_neg hx]
        rw [Bool.not_eq_true] at hx
        rw [Bool.eq_false_iff]
        intro hmem
        rw [hwf1 q hq hmem] at hx
        exact absurd hx (by decide)
  · rw [Bool.not_eq_true] at hc
    rw [hc] at hfail ⊢
    simp only [Bool.false_eq_true, if_false] at hfail ⊢
    unfold rmdirCleanup
    rw [hpre, if_neg (by simp)]
    rw [Bool.eq_false_iff]
    intro hmem
    rw [hwf0 q hq hmem] at hpre
    exact absurd hpre (by decide)

/-- Witness for C3 at a concrete run: the provisioner creates the slot and a
directory below it, then exits with status 2; afterwards nothing below the
slot exists. -/
theorem conda_create_failure_removes_slot_witness :
    pathExists [["cache"]] ["cache", "k"] = false
    ∧ (CondaEnvironment.create true
        (fun _ => ([["cache"], ["cache", "k"], ["cache", "k", "bin"]], 2))
        ["cache", "k"] [["cache"]] false).result = .error (.calledProcessError 2)
    ∧ pathExists
        (CondaEnvironment.create true
          (fun _ => ([["cache"], ["cache", "k"], ["cache", "k", "bin"]], 2))
          ["cache", "k"] [["cache"]] false).fs ["cache", "k", "bin"] = false := by
  refine ⟨by decide, by decide, ?_⟩
  exact conda_create_failure_removes_slot true
    (fun _ => ([["cache"], ["cache", "k"], ["cache", "k", "bin"]], 2))
    ["cache", "k"] [["cache"]] false (.calledProcessError 2)
    (by decide)
    (by intro q h1 h2; revert h1; rw [pathExists_iff_mem] at h2; simp at h2; subst h2; decide)
    (by intro q h1 h2; decide)
    (by decide)
    ["cache", "k", "bin"] (by decide)

/-- C4 counterexample: a concrete successful `CondaEnvironment.create`
(the provisioner builds the environment with its runtime binary and exits
with status 0) after which no `.ready` marker file exists inside the
returned directory — `create` never writes one. -/
theorem conda_create_no_ready_marker_cex :
    (CondaEnvironment.create true
      (fun _ => ([["c"], ["c", "k"], ["c", "k", "bin"], ["c", "k", "bin", "python"]], 0))
      ["c", "k"] [["c"]] false).result = .ok ["c", "k"]
    ∧ pathExists
        (CondaEnvironment.create true
          (fun _ => ([["c"], ["c", "k"], ["c", "k", "bin"], ["c", "k", "bin", "python"]], 0))
          ["c", "k"] [["c"]] false).fs ["c", "k", ".ready"] = false := by
  decide

/-- C4 amended: after a successful `CondaEnvironment.create` on an absent
slot, the returned path is the cache slot and the filesystem is exactly what
the provisioner produced — `create` adds no `.ready` marker and performs no
check of the runtime binary; the slot directory's existence itself is the
readiness marker consulted by later calls. -/
theorem conda_create_success_leaves_provisioner_state (condaFound : Bool)
    (provision : FS → FS × Nat) (cachePath : FSPath) (fs : FS) (exist_ok : Bool)
    (hpre : pathExists fs cachePath = false)
    (hexe : condaFound = true)
    (hcode : (provision fs).2 = 0) :
    CondaEnvironment.create condaFound provision cachePath fs exist_ok
      = ⟨(provision fs).1, true, .ok cachePath⟩ := by
  subst hexe
  unfold CondaEnvironment.create
  rw [hpre]
  simp [hcode]

/-- Witness for C4's amended theorem at a concrete run. -/
theorem conda_create_success_leaves_provisioner_state_witness :
    pathExists [["c"]] ["c", "k"] = false
    ∧ ((fun _ => ([["c"], ["c", "k"], ["c", "k", "bin", "python"]], 0)) ([["c"]] : FS)).2 = 0
    ∧ CondaEnvironment.create true
        (fun _ => ([["c"], ["c", "k"], ["c", "k", "bin", "python"]], 0))
        ["c", "k"] [["c"]] true
      = ⟨[["c"], ["c", "k"], ["c", "k", "bin", "python"]], true, .ok ["c", "k"]⟩ :=
  ⟨by decide, by decide,
    conda_create_success_leaves_provisioner_state true
      (fun _ => ([["c"], ["c", "k"], ["c", "k", "bin", "python"]], 0))
      ["c", "k"] [["c"]] true (by decide) rfl (by decide)⟩

/-- C6: when the cache slot exists, `create` with `exist_ok` returns the
existing path untouched without invoking the provisioner, and without
`exist_ok` raises `FileExistsError`; when the slot does not exist, no
`FileExistsError` is ever raised. -/
theorem conda_create_exist_ok_cases (condaFound : Bool) (provision : FS → FS × Nat)
    (cachePath : FSPath) (fs : FS) (exist_ok : Bool) :
    (pathExists fs cachePath = true →
      CondaEnvironment.create condaFound provision cachePath fs true
        = ⟨fs, false, .ok cachePath⟩
      ∧ (CondaEnvironment.create condaFound provision cachePath fs false).result
        = .error (.fileExistsError cachePath))
    ∧ (pathExists fs cachePath = false →
      ∀ p e, (CondaEnvironment.create condaFound provision cachePath fs exist_ok).result
          = .error e → e ≠ .fileExistsError p) := by
  constructor
  · intro h
    constructor <;> simp [CondaEnvironment.create, h]
  · intro h p e he
    unfold CondaEnvironment.create at he
    rw [h] at he
    simp only [Bool.false_eq_true, if_false] at he
    by_cases hc : condaFound = true
    · rw [hc, if_pos rfl] at he
      by_cases hz : (provision fs).2 = 0
      · rw [if_pos hz] at he
        exact absurd he (by simp)
      · rw [if_neg hz] at he
        simp only [Except.error.injEq] at he
        rw [← he]
        intro hcontra
        cases hcontra
    · rw [Bool.not_eq_true] at hc
      rw [hc] at he
      simp only [Bool.false_eq_true, if_false] at he
      simp only [Except.error.injEq] at he
      rw [← he]
      intro hcontra
      cases hcontra

/-- Witness for C6 at concrete inputs: an existing slot returned as-is with
`exist_ok`, raising `FileExistsError` without it; on an absent slot the
raised error (conda executable missing here) is not `FileExistsError`. -/
theorem conda_create_exist_ok_cases_witness :
    (CondaEnvironment.create false (fun s => (s, 0)) ["c", "k"] [["c", "k"]] true
      = ⟨[["c", "k"]], false, .ok ["c", "k"]⟩
    ∧ (CondaEnvironment.create false (fun s => (s, 0)) ["c", "k"] [["c", "k"]] false).result
      = .error (.fileExistsError ["c", "k"]))
    ∧ ((PyError.fileNotFoundError) ≠ .fileExistsError ["c", "k"]) := by
  refine ⟨(conda_create_exist_ok_cases false (fun s => (s, 0)) ["c", "k"] [["c", "k"]] true).1
    (by decide), ?_⟩
  exact (conda_create_exist_ok_cases false (fun s => (s, 0)) ["c", "k"] [] true).2
    (by decide) ["c", "k"] .fileNotFoundError (by decide)

/-- C7 counterexample: destroying a handle twice is not error-free — the
first `destroy` succeeds, the second raises `FileNotFoundError` because
`shutil.rmtree` fails on the already-removed tree. -/
theorem conda_destroy_not_idempotent_cex :
    (CondaEnvironment.destroy [["env"]] ["env"]).2 = .ok ()
    ∧ (CondaEnvironment.destroy (CondaEnvironment.destroy [["env"]] ["env"]).1 ["env"]).2
      = .error .fileNotFoundError := by
  decide

/-- C7 amended: `destroy` removes the root tree when it exists, but it is
not idempotent — after the first call the tree is gone and a second call on
the same handle raises `FileNotFoundError`. -/
theorem conda_destroy_second_call_raises (fs : FS) (p : FSPath)
    (h : pathExists fs p = true) :
    (CondaEnvironment.destroy fs p).2 = .ok ()
    ∧ pathExists (CondaEnvironment.destroy fs p).1 p = false
    ∧ (CondaEnvironment.destroy (CondaEnvironment.destroy fs p).1 p).2
      = .error .fileNotFoundError := by
  have hgone : pathExists (CondaEnvironment.destroy fs p).1 p = false := by
    unfold CondaEnvironment.destroy
    rw [if_pos h]
    exact pathExists_rmtree_of_under _ _ _ (isPrefixOf_self p)
  refine ⟨by unfold CondaEnvironment.destroy; rw [if_pos h], hgone, ?_⟩
  have hsecond : ∀ fs2 : FS, pathExists fs2 p = false →
      (CondaEnvironment.destroy fs2 p).2 = .error .fileNotFoundError := by
    intro fs2 hf
    unfold CondaEnvironment.destroy
    rw [hf]
    simp
  exact hsecond _ hgone

/-- Witness for C7's amended theorem at a concrete handle. -/
theorem conda_destroy_second_call_raises_witness :
    pathExists [["env"], ["env", "bin"]] ["env"] = true
    ∧ (CondaEnvironment.destroy [["env"], ["env", "bin"]] ["env"]).2 = .ok ()
    ∧ (CondaEnvironment.destroy
        (CondaEnvironment.destroy [["env"], ["env", "bin"]] ["env"]).1 ["env"]).2
      = .error .fileNotFoundError :=
  ⟨by decide,
    (conda_destroy_second_call_raises [["env"], ["env", "bin"]] ["env"] (by decide)).1,
    (conda_destroy_second_call_raises [["env"], ["env", "bin"]] ["env"] (by decide)).2.2⟩

/-- C9 counterexample: the provisioner exits with status 0 without having
installed any runtime binary under the prefix, yet `create` still returns
the path successfully — presence of the runtime binary is not part of
`create`'s success condition. -/
theorem conda_create_no_binary_check_cex :
    (CondaEnvironment.create true (fun _ => ([["c"], ["c", "k"]], 0))
      ["c", "k"] [["c"]] false).result = .ok ["c", "k"]
    ∧ pathExists
        (CondaEnvironment.create true (fun _ => ([["c"], ["c", "k"]], 0))
          ["c", "k"] [["c"]] false).fs ["c", "k", "bin", "python"] = false := by
  decide

/-- C9 amended: on an absent slot with the conda executable found,
`CondaEnvironment.create` returns successfully if and only if the
package-manager subprocess exits with status zero; the runtime binary's
presence is not checked by `create` (it is only checked later when a
connection is opened). -/
theorem conda_create_success_iff_zero_exit (condaFound : Bool)
    (provision : FS → FS × Nat) (cachePath : FSPath) (fs : FS) (exist_ok : Bool)
    (hpre : pathExists fs cachePath = false)
    (hexe : condaFound = true) :
    (CondaEnvironment.create condaFound provision cachePath fs exist_ok).result
      = .ok cachePath
    ↔ (provision fs).2 = 0 := by
  subst hexe
  unfold CondaEnvironment.create
  rw [hpre]
  simp only [Bool.false_eq_true, if_false, if_true]
  by_cases hz : (provision fs).2 = 0
  · simp [hz]
  · simp [hz]

/-- Witness for C9's amended theorem at a concrete run (exit status 1, so
`create` does not return the path). -/
theorem conda_create_success_iff_zero_exit_witness :
    pathExists [["c"]] ["c", "k"] = false
    ∧ ¬ ((CondaEnvironment.create true (fun s => (s, 1)) ["c", "k"] [["c"]] false).result
      = .ok ["c", "k"]) :=
  ⟨by decide,
    fun h => absurd
      ((conda_create_success_iff_zero_exit true (fun s => (s, 1)) ["c", "k"] [["c"]] false
        (by decide) rfl).mp h)
      (by decide)⟩

/-- C10: the conda fingerprint hashes the packages joined by single spaces,
so the distinct package lists `["a b"]` and `["a", "b"]` collide for every
hash function: their keys, cache slots and hence their entire `create`
behavior coincide. -/
theorem conda_key_not_injective (sha256hex : String → String) (condaFound : Bool)
    (provision : FS → FS × Nat) (cacheDir : FSPath) (fs : FS) (exist_ok : Bool) :
    CondaEnvironment.key sha256hex ["a b"] = CondaEnvironment.key sha256hex ["a", "b"]
    ∧ (["a b"] : List String) ≠ ["a", "b"]
    ∧ CondaEnvironment.cacheSlot sha256hex cacheDir ["a b"]
      = CondaEnvironment.cacheSlot sha256hex cacheDir ["a", "b"]
    ∧ CondaEnvironment.create condaFound provision
        (CondaEnvironment.cacheSlot sha256hex cacheDir ["a b"]) fs exist_ok
      = CondaEnvironment.create condaFound provision
        (CondaEnvironment.cacheSlot sha256hex cacheDir ["a", "b"]) fs exist_ok := by
  have hj : String.intercalate " " ["a b"] = String.intercalate " " ["a", "b"] := by
    decide
  have hk : CondaEnvironment.key sha256hex ["a b"]
      = CondaEnvironment.key sha256hex ["a", "b"] := by
    unfold CondaEnvironment.key
    rw [hj]
  have hs : CondaEnvironment.cacheSlot sha256hex cacheDir ["a b"]
      = CondaEnvironment.cacheSlot sha256hex cacheDir ["a", "b"] := by
    unfold CondaEnvironment.cacheSlot
    rw [hk]
  exact ⟨hk, by decide, hs, by rw [hs]⟩

/-! ## Claim theorems: remote facade -/

theorem collect_fst {L R V : Type} (decode : R → V) (stream : List (PartialResult L R)) :
    (IsolateServerConnection.collect decode stream).1
      = stream.flatMap (fun m => m.logs) := by
  induction stream with
  | nil => rfl
  | cons msg rest ih =>
    simp [IsolateServerConnection.collect, ih]

theorem collect_snd {L R V : Type} (decode : R → V) (stream : List (PartialResult L R)) :
    (IsolateServerConnection.collect decode stream).2
      = (stream.filter (fun m => m.is_complete)).map (fun m => decode m.result) := by
  induction stream with
  | nil => rfl
  | cons msg rest ih =>
    by_cases hc : msg.is_complete = true
    · simp [IsolateServerConnection.collect, ih, List.filter_cons, hc]
    · rw [Bool.not_eq_true] at hc
      simp [IsolateServerConnection.collect, ih, List.filter_cons, hc]

theorem find?_eq_head?_filter {α : Type} (p : α → Bool) (l : List α) :
    l.find? p = (l.filter p).head? := by
  induction l with
  | nil => rfl
  | cons x rest ih =>
    by_cases hx : p x = true
    · rw [List.find?_cons_of_pos _ hx, List.filter_cons_of_pos hx]
      rfl
    · rw [Bool.not_eq_true] at hx
      rw [List.find?_cons_of_neg _ (by simp [hx]), List.filter_cons_of_neg (by simp [hx]), ih]

set_option maxRecDepth 4096 in
/-- C1: `IsolateServerConnection.run` returns the decoded result of the
unique message with `is_complete` when there is exactly one, raises a
`RuntimeError` with the no-result message when there is none, and raises a
`RuntimeError` with the multiple-results message (distinct from the former)
when there are several. -/
theorem remote_run_terminal_frames {L R V : Type} (decode : R → V)
    (stream : List (PartialResult L R)) :
    (∀ m, stream.countP (fun r => r.is_complete) = 1 →
      stream.find? (fun r => r.is_complete) = some m →
      (IsolateServerConnection.run decode stream).2 = .ok (decode m.result))
    ∧ (stream.countP (fun r => r.is_complete) = 0 →
      (IsolateServerConnection.run decode stream).2 = .error noResultMsg)
    ∧ (1 < stream.countP (fun r => r.is_complete) →
      (IsolateServerConnection.run decode stream).2 = .error multipleResultsMsg)
    ∧ noResultMsg ≠ multipleResultsMsg := by
  have hcount : stream.countP (fun r => r.is_complete)
      = (stream.filter (fun r => r.is_complete)).length := by
    rw [List.countP_eq_length_filter]
  refine ⟨?_, ?_, ?_, by decide⟩
  · intro m hone hfind
    rw [hcount] at hone
    obtain ⟨a, ha⟩ := List.length_eq_one.mp hone
    rw [find?_eq_head?_filter, ha] at hfind
    simp only [List.head?_cons, Option.some.injEq] at hfind
    subst hfind
    unfold IsolateServerConnection.run
    rw [collect_snd, ha]
    rfl
  · intro hzero
    rw [hcount, List.length_eq_zero] at hzero
    unfold IsolateServerConnection.run
    rw [collect_snd, hzero]
    rfl
  · intro hmany
    rw [hcount] at hmany
    unfold IsolateServerConnection.run
    rw [collect_snd]
    match hf : stream.filter (fun r => r.is_complete) with
    | [] => rw [hf] at hmany; simp at hmany
    | [a] => rw [hf] at hmany; simp at hmany
    | a :: b :: rest =>
      rw [hf]
      rfl

/-- Witness for C1 at concrete streams: one terminal frame yields its
decoded result; an empty stream yields the no-result error; two terminal
frames yield the multiple-results error. -/
theorem remote_run_terminal_frames_witness :
    (([⟨[0], 7, true⟩] : List (PartialResult Nat Nat)).countP (fun r => r.is_complete) = 1
    ∧ ([⟨[0], 7, true⟩] : List (PartialResult Nat Nat)).find? (fun r => r.is_complete)
      = some ⟨[0], 7, true⟩
    ∧ (IsolateServerConnection.run (fun r => r + 1) [⟨[0], 7, true⟩]).2 = .ok 8)
    ∧ (([⟨[0], 7, false⟩] : List (PartialResult Nat Nat)).countP (fun r => r.is_complete) = 0
    ∧ (IsolateServerConnection.run (fun r => r + 1) [⟨[0], 7, false⟩]).2 = .error noResultMsg)
    ∧ (1 < ([⟨[0], 7, true⟩, ⟨[0], 9, true⟩] : List (PartialResult Nat Nat)).countP
        (fun r => r.is_complete)
    ∧ (IsolateServerConnection.run (fun r => r + 1)
        ([⟨[0], 7, true⟩, ⟨[0], 9, true⟩] : List (PartialResult Nat Nat))).2
      = .error multipleResultsMsg) := by
  refine ⟨⟨by decide, by rfl, ?_⟩, ⟨by decide, ?_⟩, ⟨by decide, ?_⟩⟩
  · exact (remote_run_terminal_frames (fun r => r + 1) [⟨[0], 7, true⟩]).1
      ⟨[0], 7, true⟩ (by decide) (by rfl)
  · exact (remote_run_terminal_frames (fun r => r + 1) [⟨[0], 7, false⟩]).2.1 (by decide)
  · exact (remote_run_terminal_frames (fun r => r + 1)
      ([⟨[0], 7, true⟩, ⟨[0], 9, true⟩] : List (PartialResult Nat Nat))).2.2.1 (by decide)

/-- C2: whenever `IsolateServerConnection.run` returns a result, the trace
of log records it forwarded to the sink before returning is exactly the
concatenation, in stream order, of the log records carried by the streamed
messages. -/
theorem remote_run_forwards_logs_in_order {L R V : Type} (decode : R → V)
    (stream : List (PartialResult L R)) (v : V)
    (_hok : (IsolateServerConnection.run decode stream).2 = .ok v) :
    (IsolateServerConnection.run decode stream).1
      = stream.flatMap (fun m => m.logs) := by
  unfold IsolateServerConnection.run
  simp only
  rw [collect_fst]

/-- Witness for C2 at a concrete stream of three messages. -/
theorem remote_run_forwards_logs_in_order_witness :
    (IsolateServerConnection.run (fun r : Nat => r)
      [⟨[1, 2], 0, false⟩, ⟨[3], 5, true⟩, ⟨[4], 0, false⟩]).2 = .ok 5
    ∧ (IsolateServerConnection.run (fun r : Nat => r)
        [⟨([1, 2] : List Nat), 0, false⟩, ⟨[3], 5, true⟩, ⟨[4], 0, false⟩]).1
      = [1, 2, 3, 4] :=
  ⟨by rfl,
    by
      rw [remote_run_forwards_logs_in_order (fun r : Nat => r)
        [⟨[1, 2], 0, false⟩, ⟨[3], 5, true⟩, ⟨[4], 0, false⟩] 5 (by rfl)]
      rfl⟩

/-! ## Claim theorems: search-path composition -/

theorem splitSep_no_sep (sep : Char) (l : List Char) (h : sep ∉ l) :
    splitSep sep l = [l] := by
  induction l with
  | nil => rfl
  | cons c rest ih =>
    have hc : ¬ c = sep := fun hcs => h (hcs ▸ List.mem_cons_self c rest)
    have hrest : sep ∉ rest := fun hm => h (List.mem_cons_of_mem c hm)
    unfold splitSep
    rw [ih hrest]
    simp [hc]

theorem splitSep_ne_nil (sep : Char) (l : List Char) : splitSep sep l ≠ [] := by
  cases l with
  | nil => simp [splitSep]
  | cons c rest =>
    unfold splitSep
    match hsp : splitSep sep rest with
    | [] => simp
    | h :: t => by_cases hc : c = sep <;> simp [hc]

theorem splitSep_append_sep (sep : Char) (a rest : List Char) (h : sep ∉ a) :
    splitSep sep (a ++ sep :: rest) = a :: splitSep sep rest := by
  induction a with
  | nil =>
    show splitSep sep (sep :: rest) = [] :: splitSep sep rest
    conv_lhs => unfold splitSep
    match hsp : splitSep sep rest with
    | [] => exact absurd hsp (splitSep_ne_nil sep rest)
    | h :: t => simp
  | cons c a2 ih =>
    have hc : ¬ c = sep := fun hcs => h (hcs ▸ List.mem_cons_self c a2)
    have ha2 : sep ∉ a2 := fun hm => h (List.mem_cons_of_mem c hm)
    show splitSep sep (c :: (a2 ++ sep :: rest)) = (c :: a2) :: splitSep sep rest
    conv_lhs => unfold splitSep
    rw [ih ha2]
    simp [hc]

theorem splitSep_joinSep (sep : Char) (parts : List (List Char))
    (hne : parts ≠ []) (hsep : ∀ p ∈ parts, sep ∉ p) :
    splitSep sep (joinSep sep parts) = parts := by
  induction parts with
  | nil => exact absurd rfl hne
  | cons x rest ih =>
    cases rest with
    | nil =>
      show splitSep sep (joinSep sep [x]) = [x]
      unfold joinSep
      exact splitSep_no_sep sep x (hsep x (List.mem_cons_self x []))
    | cons y t =>
      have hx : sep ∉ x := hsep x (List.mem_cons_self x (y :: t))
      have hjoin : joinSep sep (x :: y :: t) = x ++ sep :: joinSep sep (y :: t) := rfl
      rw [hjoin, splitSep_append_sep sep x _ hx,
        ih (by simp) (fun p hp => hsep p (List.mem_cons_of_mem x hp))]

/-- C8: for a non-empty primary-first list of environment roots,
`python_path_for` succeeds and the joined search path splits back, on the
path separator, into exactly the library directory of each root in the
given order — the primary's library directory first, inheritance entries in
their relative order.  (The separator must not occur inside a library
directory, as for real paths.) -/
theorem python_path_for_order (sep : Char) (libdir : List Char → List Char)
    (search_paths : List (List Char))
    (hne : search_paths ≠ [])
    (hsep : ∀ p ∈ search_paths, sep ∉ libdir p) :
    (python_path_for sep libdir search_paths).map (splitSep sep)
      = some (search_paths.map libdir) := by
  unfold python_path_for
  rw [if_pos (by
    match search_paths with
    | [] => exact absurd rfl hne
    | x :: t => simp)]
  rw [Option.map_some']
  rw [splitSep_joinSep sep (search_paths.map libdir)
    (by
      match search_paths with
      | [] => exact absurd rfl hne
      | x :: t => simp)
    (by
      intro p hp
      obtain ⟨q, hq, rfl⟩ := List.mem_map.mp hp
      exact hsep q hq)]

/-- Witness for C8 at a concrete primary plus two inheritance roots. -/
theorem python_path_for_order_witness :
    (([['H'], ['I', '1'], ['I', '2']] : List (List Char)) ≠ [])
    ∧ (python_path_for ':' (fun p => 'L' :: p) [['H'], ['I', '1'], ['I', '2']]).map
        (splitSep ':')
      = some [['L', 'H'], ['L', 'I', '1'], ['L', 'I', '2']] :=
  ⟨by decide,
    python_path_for_order ':' (fun p => 'L' :: p) [['H'], ['I', '1'], ['I', '2']]
      (by decide) (by decide)⟩

/-! ## Helper lemmas: base64 and UTF-8 round trips -/

theorem b64Index_b64Char : ∀ n < 64, b64Index (b64Char n) = some n := by
  decide

theorem b64Char_ne_pad : ∀ n < 64, b64Char n ≠ b64Pad := by
  decide

theorem b64Char_lt_128 : ∀ n < 64, b64Char n < 128 := by
  decide

theorem b64Decode_b64Encode :
    ∀ bs : List Nat, (∀ b ∈ bs, b < 256) → b64Decode (b64Encode bs) = some bs
  | [], _ => rfl
  | [b1], h => by
    have h1 : b1 < 256 := h b1 (by simp)
    show b64Decode [b64Char (b1 / 4), b64Char (b1 % 4 * 16), b64Pad, b64Pad] = some [b1]
    unfold b64Decode
    rw [b64Index_b64Char (b1 / 4) (by omega), b64Index_b64Char (b1 % 4 * 16) (by omega)]
    simp only [if_pos rfl, and_self, reduceIte]
    have e1 : b1 / 4 * 4 + b1 % 4 * 16 / 16 = b1 := by omega
    rw [e1]
  | [b1, b2], h => by
    have h1 : b1 < 256 := h b1 (by simp)
    have h2 : b2 < 256 := h b2 (by simp)
    show b64Decode
      [b64Char (b1 / 4), b64Char (b1 % 4 * 16 + b2 / 16), b64Char (b2 % 16 * 4), b64Pad]
      = some [b1, b2]
    unfold b64Decode
    rw [b64Index_b64Char (b1 / 4) (by omega),
      b64Index_b64Char (b1 % 4 * 16 + b2 / 16) (by omega)]
    simp only
    rw [if_neg (b64Char_ne_pad (b2 % 16 * 4) (by omega)),
      b64Index_b64Char (b2 % 16 * 4) (by omega)]
    simp only [if_pos rfl, reduceIte]
    congr 1
    have e1 : b1 / 4 * 4 + (b1 % 4 * 16 + b2 / 16) / 16 = b1 := by omega
    have e2 : (b1 % 4 * 16 + b2 / 16) % 16 * 16 + b2 % 16 * 4 / 4 = b2 := by omega
    rw [e1, e2]
  | b1 :: b2 :: b3 :: rest, h => by
    have h1 : b1 < 256 := h b1 (by simp)
    have h2 : b2 < 256 := h b2 (by simp)
    have h3 : b3 < 256 := h b3 (by simp)
    have hrest : ∀ b ∈ rest, b < 256 := fun b hb => h b (by simp [hb])
    show b64Decode
      (b64Char (b1 / 4) :: b64Char (b1 % 4 * 16 + b2 / 16) ::
        b64Char (b2 % 16 * 4 + b3 / 64) :: b64Char (b3 % 64) :: b64Encode rest)
      = some (b1 :: b2 :: b3 :: rest)
    unfold b64Decode
    rw [b64Index_b64Char (b1 / 4) (by omega),
      b64Index_b64Char (b1 % 4 * 16 + b2 / 16) (by omega)]
    simp only
    rw [if_neg (b64Char_ne_pad (b2 % 16 * 4 + b3 / 64) (by omega)),
      b64Index_b64Char (b2 % 16 * 4 + b3 / 64) (by omega)]
    simp only
    rw [if_neg (b64Char_ne_pad (b3 % 64) (by omega)),
      b64Index_b64Char (b3 % 64) (by omega)]
    simp only
    rw [b64Decode_b64Encode rest hrest]
    simp only [Option.map_some']
    congr 1
    have e1 : b1 / 4 * 4 + (b1 % 4 * 16 + b2 / 16) / 16 = b1 := by omega
    have e2 : (b1 % 4 * 16 + b2 / 16) % 16 * 16 + (b2 % 16 * 4 + b3 / 64) / 4 = b2 := by
      omega
    have e3 : (b2 % 16 * 4 + b3 / 64) % 4 * 64 + b3 % 64 = b3 := by omega
    rw [e1, e2, e3]

theorem b64Encode_lt_128 :
    ∀ bs : List Nat, (∀ b ∈ bs, b < 256) → ∀ x ∈ b64Encode bs, x < 128
  | [], _ => by simp [b64Encode]
  | [b1], h => by
    have h1 : b1 < 256 := h b1 (by simp)
    show ∀ x ∈ [b64Char (b1 / 4), b64Char (b1 % 4 * 16), b64Pad, b64Pad], x < 128
    intro x hx
    simp only [List.mem_cons, List.not_mem_nil, or_false] at hx
    rcases hx with rfl | rfl | rfl | rfl
    · exact b64Char_lt_128 _ (by omega)
    · exact b64Char_lt_128 _ (by omega)
    · decide
    · decide
  | [b1, b2], h => by
    have h1 : b1 < 256 := h b1 (by simp)
    have h2 : b2 < 256 := h b2 (by simp)
    show ∀ x ∈ [b64Char (b1 / 4), b64Char (b1 % 4 * 16 + b2 / 16),
      b64Char (b2 % 16 * 4), b64Pad], x < 128
    intro x hx
    simp only [List.mem_cons, List.not_mem_nil, or_false] at hx
    rcases hx with rfl | rfl | rfl | rfl
    · exact b64Char_lt_128 _ (by omega)
    · exact b64Char_lt_128 _ (by omega)
    · exact b64Char_lt_128 _ (by omega)
    · decide
  | b1 :: b2 :: b3 :: rest, h => by
    have h1 : b1 < 256 := h b1 (by simp)
    have h2 : b2 < 256 := h b2 (by simp)
    have h3 : b3 < 256 := h b3 (by simp)
    have hrest : ∀ b ∈ rest, b < 256 := fun b hb => h b (by simp [hb])
    show ∀ x ∈ b64Char (b1 / 4) :: b64Char (b1 % 4 * 16 + b2 / 16) ::
      b64Char (b2 % 16 * 4 + b3 / 64) :: b64Char (b3 % 64) :: b64Encode rest, x < 128
    intro x hx
    simp only [List.mem_cons] at hx
    rcases hx with rfl | rfl | rfl | rfl | hx
    · exact b64Char_lt_128 _ (by omega)
    · exact b64Char_lt_128 _ (by omega)
    · exact b64Char_lt_128 _ (by omega)
    · exact b64Char_lt_128 _ (by omega)
    · exact b64Encode_lt_128 rest hrest x hx

theorem utf8Decode_cons1 (b : Nat) (hb : b < 0x80) (rest : List Nat) :
    utf8Decode (b :: rest) = (utf8Decode rest).map (b :: ·) := by
  match rest with
  | [] => simp [utf8Decode, hb]
  | [x] => simp [utf8Decode, hb]
  | [x, y] => simp [utf8Decode, hb]
  | x :: y :: z :: t => simp [utf8Decode, hb]

theorem utf8Decode_cons2 (b1 b2 : Nat) (h2 : utf8Seq2OK b1 b2) (rest : List Nat) :
    utf8Decode (b1 :: b2 :: rest) = (utf8Decode rest).map (utf8Cp2 b1 b2 :: ·) := by
  have hnb : ¬ b1 < 0x80 := by
    unfold utf8Seq2OK isCont at h2
    omega
  match rest with
  | [] => simp [utf8Decode, hnb, h2]
  | [x] => simp [utf8Decode, hnb, h2]
  | x :: y :: t => simp [utf8Decode, hnb, h2]

theorem utf8Decode_cons3 (b1 b2 b3 : Nat) (h3 : utf8Seq3OK b1 b2 b3) (rest : List Nat) :
    utf8Decode (b1 :: b2 :: b3 :: rest) = (utf8Decode rest).map (utf8Cp3 b1 b2 b3 :: ·) := by
  have hnb : ¬ b1 < 0x80 := by
    unfold utf8Seq3OK isCont at h3
    omega
  have hn2 : ¬ utf8Seq2OK b1 b2 := by
    unfold utf8Seq3OK at h3
    unfold utf8Seq2OK
    omega
  match rest with
  | [] => simp [utf8Decode, hnb, hn2, h3]
  | x :: t => simp [utf8Decode, hnb, hn2, h3]

theorem utf8Decode_cons4 (b1 b2 b3 b4 : Nat) (h4 : utf8Seq4OK b1 b2 b3 b4)
    (rest : List Nat) :
    utf8Decode (b1 :: b2 :: b3 :: b4 :: rest)
      = (utf8Decode rest).map (utf8Cp4 b1 b2 b3 b4 :: ·) := by
  have hnb : ¬ b1 < 0x80 := by
    unfold utf8Seq4OK isCont at h4
    omega
  have hn2 : ¬ utf8Seq2OK b1 b2 := by
    unfold utf8Seq4OK at h4
    unfold utf8Seq2OK
    omega
  have hn3 : ¬ utf8Seq3OK b1 b2 b3 := by
    unfold utf8Seq4OK at h4
    unfold utf8Seq3OK
    omega
  simp [utf8Decode, hnb, hn2, hn3, h4]

theorem utf8Decode_encodeChar_append (c : Nat) (hc : ScalarValue c) (rest : List Nat) :
    utf8Decode (utf8EncodeChar c ++ rest) = (utf8Decode rest).map (c :: ·) := by
  unfold ScalarValue at hc
  unfold utf8EncodeChar
  by_cases h1 : c < 0x80
  · rw [if_pos h1]
    show utf8Decode (c :: rest) = _
    rw [utf8Decode_cons1 c h1 rest]
  · rw [if_neg h1]
    by_cases h2 : c < 0x800
    · rw [if_pos h2]
      show utf8Decode ((0xC0 + c / 64) :: (0x80 + c % 64) :: rest) = _
      rw [utf8Decode_cons2 _ _ (by unfold utf8Seq2OK isCont; omega) rest]
      have e : utf8Cp2 (0xC0 + c / 64) (0x80 + c % 64) = c := by
        unfold utf8Cp2
        omega
      rw [e]
    · rw [if_neg h2]
      by_cases h3 : c < 0x10000
      · rw [if_pos h3]
        show utf8Decode
          ((0xE0 + c / 4096) :: (0x80 + c / 64 % 64) :: (0x80 + c % 64) :: rest) = _
        rw [utf8Decode_cons3 _ _ _ (by unfold utf8Seq3OK isCont utf8Cp3; omega) rest]
        have e : utf8Cp3 (0xE0 + c / 4096) (0x80 + c / 64 % 64) (0x80 + c % 64) = c := by
          unfold utf8Cp3
          omega
        rw [e]
      · rw [if_neg h3]
        show utf8Decode ((0xF0 + c / 262144) :: (0x80 + c / 4096 % 64)
          :: (0x80 + c / 64 % 64) :: (0x80 + c % 64) :: rest) = _
        rw [utf8Decode_cons4 _ _ _ _ (by unfold utf8Seq4OK isCont utf8Cp4; omega) rest]
        have e : utf8Cp4 (0xF0 + c / 262144) (0x80 + c / 4096 % 64)
            (0x80 + c / 64 % 64) (0x80 + c % 64) = c := by
          unfold utf8Cp4
          omega
        rw [e]

theorem utf8Decode_utf8Encode (s : List Nat) (h : ∀ c ∈ s, ScalarValue c) :
    utf8Decode (utf8Encode s) = some s := by
  induction s with
  | nil => rfl
  | cons c s2 ih =>
    have hc : ScalarValue c := h c (by simp)
    have hs2 : ∀ x ∈ s2, ScalarValue x := fun x hx => h x (by simp [hx])
    show utf8Decode ((c :: s2).flatMap utf8EncodeChar) = some (c :: s2)
    rw [List.flatMap_cons]
    rw [utf8Decode_encodeChar_append c hc]
    rw [show s2.flatMap utf8EncodeChar = utf8Encode s2 from rfl, ih hs2]
    rfl

theorem utf8EncodeChar_lt_256 (c : Nat) (h : c < 0x110000) :
    ∀ b ∈ utf8EncodeChar c, b < 256 := by
  unfold utf8EncodeChar
  split_ifs with h1 h2 h3
  · intro b hb
    simp only [List.mem_cons, List.not_mem_nil, or_false] at hb
    omega
  · intro b hb
    simp only [List.mem_cons, List.not_mem_nil, or_false] at hb
    rcases hb with rfl | rfl <;> omega
  · intro b hb
    simp only [List.mem_cons, List.not_mem_nil, or_false] at hb
    rcases hb with rfl | rfl | rfl <;> omega
  · intro b hb
    simp only [List.mem_cons, List.not_mem_nil, or_false] at hb
    rcases hb with rfl | rfl | rfl | rfl <;> omega

theorem utf8Encode_lt_256 (s : List Nat) (h : ∀ c ∈ s, ScalarValue c) :
    ∀ b ∈ utf8Encode s, b < 256 := by
  intro b hb
  rw [utf8Encode, List.mem_flatMap] at hb
  obtain ⟨c, hcs, hbc⟩ := hb
  have hscalar : ScalarValue c := h c hcs
  have hlt : c < 0x110000 := by
    unfold ScalarValue at hscalar
    omega
  exact utf8EncodeChar_lt_256 c hlt b hbc

theorem utf8Decode_ascii : ∀ l : List Nat, (∀ x ∈ l, x < 128) → utf8Decode l = some l
  | [], _ => rfl
  | b :: rest, h => by
    have hb : b < 128 := h b (by simp)
    rw [utf8Decode_cons1 b hb rest,
      utf8Decode_ascii rest (fun x hx => h x (by simp [hx]))]
    rfl

set_option maxRecDepth 8192 in
theorem utf8Decode_scalar :
    ∀ bs s : List Nat, utf8Decode bs = some s → ∀ c ∈ s, ScalarValue c
  | [], s, h => by
    obtain rfl : s = [] := (Option.some.inj h).symm
    intro c hc
    simp at hc
  | [b1], s, h => by
    rw [utf8Decode] at h
    split_ifs at h with hb
    · obtain rfl : s = [b1] := (Option.some.inj h).symm
      intro c hc
      simp only [List.mem_cons, List.not_mem_nil, or_false] at hc
      subst hc
      unfold ScalarValue
      omega
  | [b1, b2], s, h => by
    rw [utf8Decode] at h
    split_ifs at h with hb h2
    · obtain ⟨s2, hs2, rfl⟩ := Option.map_eq_some'.mp h
      intro c hc
      rcases List.mem_cons.mp hc with rfl | hc2
      · unfold ScalarValue
        omega
      · exact utf8Decode_scalar [b2] s2 hs2 c hc2
    · obtain rfl : s = [utf8Cp2 b1 b2] := (Option.some.inj h).symm
      intro c hc
      simp only [List.mem_cons, List.not_mem_nil, or_false] at hc
      subst hc
      unfold utf8Seq2OK isCont at h2
      unfold ScalarValue utf8Cp2
      omega
  | [b1, b2, b3], s, h => by
    rw [utf8Decode] at h
    split_ifs at h with hb h2 h3
    · obtain ⟨s2, hs2, rfl⟩ := Option.map_eq_some'.mp h
      intro c hc
      rcases List.mem_cons.mp hc with rfl | hc2
      · unfold ScalarValue
        omega
      · exact utf8Decode_scalar [b2, b3] s2 hs2 c hc2
    · obtain ⟨s2, hs2, rfl⟩ := Option.map_eq_some'.mp h
      intro c hc
      rcases List.mem_cons.mp hc with rfl | hc2
      · unfold utf8Seq2OK isCont at h2
        unfold ScalarValue utf8Cp2
        omega
      · exact utf8Decode_scalar [b3] s2 hs2 c hc2
    · obtain rfl : s = [utf8Cp3 b1 b2 b3] := (Option.some.inj h).symm
      intro c hc
      simp only [List.mem_cons, List.not_mem_nil, or_false] at hc
      subst hc
      unfold utf8Seq3OK isCont utf8Cp3 at h3
      unfold ScalarValue utf8Cp3
      omega
  | b1 :: b2 :: b3 :: b4 :: rest, s, h => by
    rw [utf8Decode] at h
    split_ifs at h with hb h2 h3 h4
    · obtain ⟨s2, hs2, rfl⟩ := Option.map_eq_some'.mp h
      intro c hc
      rcases List.mem_cons.mp hc with rfl | hc2
      · unfold ScalarValue
        omega
      · exact utf8Decode_scalar (b2 :: b3 :: b4 :: rest) s2 hs2 c hc2
    · obtain ⟨s2, hs2, rfl⟩ := Option.map_eq_some'.mp h
      intro c hc
      rcases List.mem_cons.mp hc with rfl | hc2
      · unfold utf8Seq2OK isCont at h2
        unfold ScalarValue utf8Cp2
        omega
      · exact utf8Decode_scalar (b3 :: b4 :: rest) s2 hs2 c hc2
    · obtain ⟨s2, hs2, rfl⟩ := Option.map_eq_some'.mp h
      intro c hc
      rcases List.mem_cons.mp hc with rfl | hc2
      · unfold utf8Seq3OK isCont utf8Cp3 at h3
        unfold ScalarValue utf8Cp3
        omega
      · exact utf8Decode_scalar (b4 :: rest) s2 hs2 c hc2
    · obtain ⟨s2, hs2, rfl⟩ := Option.map_eq_some'.mp h
      intro c hc
      rcases List.mem_cons.mp hc with rfl | hc2
      · unfold utf8Seq4OK isCont utf8Cp4 at h4
        unfold ScalarValue utf8Cp4
        omega
      · exact utf8Decode_scalar rest s2 hs2 c hc2

/-- The core round trip used by both halves of the amended C5 theorem:
base64-encoding a UTF-8 encoding, reading it back as text and decoding it
with `decode_service_address` recovers the original code points. -/
theorem b64_utf8_roundtrip_core (s : List Nat) (hs : ∀ c ∈ s, ScalarValue c) :
    (utf8Decode (b64Encode (utf8Encode s))).bind decode_service_address = some s := by
  have hbytes : ∀ b ∈ utf8Encode s, b < 256 := utf8Encode_lt_256 s hs
  have hascii : ∀ x ∈ b64Encode (utf8Encode s), x < 128 :=
    b64Encode_lt_128 (utf8Encode s) hbytes
  rw [utf8Decode_ascii _ hascii]
  show decode_service_address (b64Encode (utf8Encode s)) = some s
  unfold decode_service_address
  rw [b64Decode_b64Encode _ hbytes]
  show utf8Decode (utf8Encode s) = some s
  exact utf8Decode_utf8Encode s hs

/-! ## Claim theorems: service-address codec -/

/-- C5 counterexample: the round trip is not the identity on byte inputs.
For the bytes `[104, 105]` (`b"hi"`), `decode_service_address` after
`encode_service_address` produces the text `"hi"`, which — as a Python
value — is a `str`, not the original `bytes` object: the encoder coerces
bytes to text before encoding and the decoder always returns text. -/
theorem decode_encode_address_bytes_cex :
    ((encode_service_address (.inl [104, 105])).bind decode_service_address).map
      (Sum.inr : List Nat → BytesOrStr) ≠ some (.inl [104, 105]) := by
  decide

/-- C5 amended: decoding the encoded service address returns the text form
of the input.  For a text input of Unicode scalar values the round trip is
the identity; for a bytes input it returns the UTF-8 decoding of those
bytes (a text value, not the original bytes object), failing exactly when
the bytes are not valid UTF-8. -/
theorem decode_encode_address_roundtrip :
    (∀ s : List Nat, (∀ c ∈ s, ScalarValue c) →
      (encode_service_address (.inr s)).bind decode_service_address = some s)
    ∧ ∀ bs : List Nat,
      (encode_service_address (.inl bs)).bind decode_service_address = utf8Decode bs := by
  constructor
  · intro s hs
    show (utf8Decode (b64Encode (utf8Encode s))).bind decode_service_address = some s
    exact b64_utf8_roundtrip_core s hs
  · intro bs
    cases hd : utf8Decode bs with
    | none =>
      show ((utf8Decode bs).bind
        (fun s => utf8Decode (b64Encode (utf8Encode s)))).bind decode_service_address = none
      rw [hd]
      rfl
    | some s =>
      have hs : ∀ c ∈ s, ScalarValue c := utf8Decode_scalar bs s hd
      show ((utf8Decode bs).bind
        (fun s => utf8Decode (b64Encode (utf8Encode s)))).bind decode_service_address
        = some s
      rw [hd]
      show (utf8Decode (b64Encode (utf8Encode s))).bind decode_service_address = some s
      exact b64_utf8_roundtrip_core s hs

/-- Witness for C5's amended theorem at the concrete text address "hi". -/
theorem decode_encode_address_roundtrip_witness :
    (encode_service_address (.inr [104, 105])).bind decode_service_address
      = some [104, 105] :=
  decode_encode_address_roundtrip.1 [104, 105] (by decide)

end Isolate
